import Mathlib

/-!
Shallow embedding of `src/argparse.rs` of the `sad` repository: the
configuration-resolution core that turns raw command-line `Arguments` into a
resolved `Options` value (matching-engine configuration, action, fuzzy-finder
argument list, printer, unified-diff context size).

Rust strings are modelled as Lean `String`; the string manipulations used by
the source (`split` on a one-character pattern, `split_terminator("")`,
`split_whitespace`, `trim`) are re-implemented below by structural recursion
over the character list so that every definition kernel-evaluates on concrete
input.  External-system queries performed by the source (`env::args()`,
`env::var("GIT_PAGER")`, `which::which`, `atty::is`, `fs::canonicalize`) are
injected as explicit parameters, mirroring that each is a synchronous read of
ambient state.  The external `shlex` crate's `split` is modelled by a
fuel-based lexer faithful to that crate's algorithm (whitespace words,
single/double quotes, backslash escapes, `None` on a dangling quote/escape).
-/

namespace Sad

/-! ## String helpers modelling the Rust standard-library operations -/

/-- Rust `str::split(c)` for a one-character pattern, over the character
list: splits at every occurrence of `d`, keeping empty segments; the result
is always non-empty. -/
def split_on_char (d : Char) : List Char → List (List Char)
  | [] => [[]]
  | c :: rest =>
    if c = d then [] :: split_on_char d rest
    else
      match split_on_char d rest with
      | h :: t => (c :: h) :: t
      | [] => [[c]]

/-- Rust `str::split('|').next().unwrap_or(s)`: the prefix of `s` before the
first `d` (the whole of `s` when `d` does not occur).  `split` always yields
at least one segment, so the `unwrap_or` branch of the source is dead. -/
def first_segment (d : Char) (s : String) : String :=
  match split_on_char d s.data with
  | h :: _ => String.mk h
  | [] => s

/-- Whitespace predicate used by the Rust `trim` / `split_whitespace`
modelling (ASCII subset of Rust's Unicode whitespace; every input appearing
in the claims is ASCII). -/
def is_ws (c : Char) : Bool :=
  c = ' ' || c = '\t' || c = '\n' || c = '\r'

/-- Splitting at every whitespace character, keeping empty segments. -/
def split_on_ws : List Char → List (List Char)
  | [] => [[]]
  | c :: rest =>
    if is_ws c then [] :: split_on_ws rest
    else
      match split_on_ws rest with
      | h :: t => (c :: h) :: t
      | [] => [[c]]

/-- Rust `str::split_whitespace`: whitespace-separated words, empty words
dropped. -/
def split_whitespace (s : String) : List String :=
  ((split_on_ws s.data).filter (fun w => ¬ w.isEmpty)).map String.mk

/-- Rust `str::trim`: strip leading and trailing whitespace. -/
def trim_str (s : String) : String :=
  String.mk (((s.data.dropWhile is_ws).reverse.dropWhile is_ws).reverse)

/-- Rust `s.split_terminator("")`: one boundary before every character and
one after the last; the leading empty segment is kept, the trailing one is
dropped.  `"ab"` yields `["", "a", "b"]` and `""` yields `[]`. -/
def split_terminator_empty (s : String) : List String :=
  match s.data with
  | [] => []
  | cs => "" :: cs.map (fun c => String.mk [c])

/-! ## Model of the external `shlex` crate (`shlex::split`)

The `shlex` crate lexes a string into shell words: words are separated by
space, tab or newline; `'...'` quotes verbatim; `"..."` quotes with the
backslash escapes `\x24`/backtick/quote/backslash collapsed and
backslash-newline removed; a bare backslash escapes the next character.  A
dangling backslash or an unterminated quote makes `split` return `None`.
The word loop is driven by fuel (one unit per step); the top-level wrapper
supplies fuel exceeding the input length, which is always sufficient because
every step consumes at least one character. -/

/-- Body of a single-quoted section: characters up to the closing quote,
taken verbatim; `none` when the quote is unterminated. -/
def shlex_single : List Char → Option (List Char × List Char)
  | [] => none
  | c :: rest =>
    if c = '\'' then some ([], rest)
    else (shlex_single rest).map (fun p => (c :: p.1, p.2))

/-- Body of a double-quoted section, with the crate's escape handling;
`none` when the quote or a trailing escape is unterminated. -/
def shlex_double : List Char → Option (List Char × List Char)
  | [] => none
  | c :: rest =>
    if c = '"' then some ([], rest)
    else if c = '\\' then
      match rest with
      | [] => none
      | c2 :: rest2 =>
        if c2 = '$' || c2 = '`' || c2 = '"' || c2 = '\\' then
          (shlex_double rest2).map (fun p => (c2 :: p.1, p.2))
        else if c2 = '\n' then
          shlex_double rest2
        else
          (shlex_double rest2).map (fun p => ('\\' :: c2 :: p.1, p.2))
    else (shlex_double rest).map (fun p => (c :: p.1, p.2))

/-- One word, starting at character `c` with remainder `rest`; returns the
word and the unconsumed remainder, `none` on a lexing error. -/
def shlex_word (fuel : Nat) (c : Char) (rest : List Char) :
    Option (List Char × List Char) :=
  match fuel with
  | 0 => none
  | fuel + 1 =>
    if is_ws c then some ([], rest)
    else if c = '\'' then
      match shlex_single rest with
      | none => none
      | some (chunk, r) =>
        match r with
        | [] => some (chunk, [])
        | c2 :: r2 =>
          (shlex_word fuel c2 r2).map (fun p => (chunk ++ p.1, p.2))
    else if c = '"' then
      match shlex_double rest with
      | none => none
      | some (chunk, r) =>
        match r with
        | [] => some (chunk, [])
        | c2 :: r2 =>
          (shlex_word fuel c2 r2).map (fun p => (chunk ++ p.1, p.2))
    else if c = '\\' then
      match rest with
      | [] => none
      | c2 :: r2 =>
        let kept : List Char := if c2 = '\n' then [] else [c2]
        match r2 with
        | [] => some (kept, [])
        | c3 :: r3 =>
          (shlex_word fuel c3 r3).map (fun p => (kept ++ p.1, p.2))
    else
      match rest with
      | [] => some ([c], [])
      | c2 :: r2 =>
        (shlex_word fuel c2 r2).map (fun p => (c :: p.1, p.2))

/-- The word iterator: skip whitespace, lex one word, repeat. -/
def shlex_words (fuel : Nat) : List Char → Option (List String)
  | [] => some []
  | c :: rest =>
    match fuel with
    | 0 => none
    | fuel + 1 =>
      if is_ws c then shlex_words fuel rest
      else
        match shlex_word fuel c rest with
        | none => none
        | some (w, r) =>
          (shlex_words fuel r).map (fun ws => String.mk w :: ws)

/-- Model of `shlex::split`: `None` exactly when lexing hits a dangling
quote or escape. -/
def shlex_split (s : String) : Option (List String) :=
  shlex_words (s.data.length + 1) s.data

/-! ## Data model (`argparse.rs` together with `subprocess.rs` / `errors.rs`) -/

/-- `SubprocessCommand` from `subprocess.rs`: program name, ordered argument
list, environment overrides.  The source's `HashMap<String, String>` is
modelled as an association list (the resolver only ever builds it empty). -/
structure SubprocessCommand where
  program : String
  arguments : List String
  env : List (String × String)
deriving DecidableEq, Repr

/-- Modelled from the spec: `errors.rs` is not included under `src/`.  The
spec's §7 lists two error kinds, `InvalidFlags` (raised by the source as
`Failure::Simple("Invalid flags")`) and `PatternCompilationFailed` (a wrapped
regex-compilation error, reached through `into_sadness()`). -/
inductive Failure where
  | Simple (msg : String)
  | Compile (msg : String)
deriving DecidableEq, Repr

/-- `SadResult<T> = Result<T, Failure>`. -/
abbrev SadResult (α : Type) := Except Failure α

/-- The configuration accumulated by `aho_corasick::AhoCorasickBuilder`
before `build(&[pattern])`: the compiled literal matcher is modelled by its
builder state (the automaton construction itself is the external crate's
work).  `ascii_case_insensitive` defaults to `false`. -/
structure AhoCorasickConfig where
  patterns : List String
  ascii_case_insensitive : Bool := false
deriving DecidableEq, Repr

/-- The configuration accumulated by `regex::RegexBuilder` before `build()`:
the compiled regex is modelled by its builder state; the regex-syntax
compilation performed by `build()` is the external crate's work and its
failure mode (`PatternCompilationFailed`) is outside this model.  All five
option fields default to `false`. -/
structure RegexConfig where
  pattern : String
  case_insensitive : Bool := false
  multi_line : Bool := false
  dot_matches_new_line : Bool := false
  swap_greed : Bool := false
  ignore_whitespace : Bool := false
deriving DecidableEq, Repr

/-- `enum Engine`: a literal multi-pattern matcher or a compiled regex, each
carrying its replacement text. -/
inductive Engine where
  | AhoCorasick (ac : AhoCorasickConfig) (replace : String)
  | Regex (re : RegexConfig) (replace : String)
deriving DecidableEq, Repr

/-- `enum Action`. -/
inductive Action where
  | Preview
  | Commit
  | Fzf
deriving DecidableEq, Repr

/-- `enum Printer`. -/
inductive Printer where
  | Stdout
  | Pager (cmd : SubprocessCommand)
deriving DecidableEq, Repr

/-- `struct Arguments`: the structured command-line input, as parsed by
structopt (the parsing library itself is external; this is its output). -/
structure Arguments where
  pattern : String
  replace : Option String
  nul_delim : Bool
  commit : Bool
  exact : Bool
  flags : Option String
  pager : Option String
  fzf : Option String
  unified : Option Nat
  internal_preview : Option String
  internal_patch : Option (List String)
  shell : Option String
deriving DecidableEq, Repr

/-- `struct Options`: the final resolved configuration. -/
structure Options where
  name : String
  action : Action
  engine : Engine
  fzf : Option (List String)
  printer : Printer
  unified : Nat
deriving DecidableEq, Repr

/-- The ambient state read by the resolver, injected explicitly: the process
argument list (`env::args()`), the `GIT_PAGER` variable, whether
`which("fzf")` succeeds, whether stdout is a tty (`atty`), the result of
`fs::canonicalize` on `argv[0]`, and the result of `which("sad")`. -/
structure Env where
  argv : List String
  git_pager : Option String
  fzf_found : Bool
  tty : Bool
  canonical_argv0 : Option String
  which_sad : Option String
deriving DecidableEq, Repr

/-! ## `Arguments::new`: re-invocation reconstruction -/

/-- The loop body of `Arguments::new`'s `-c` branch: every delimiter
segment except the last is passed through literally; the last is shell-lexed
with `shlex::split(param).unwrap_or(Vec::new())`. -/
def reconstruct_params : List String → List String
  | [] => []
  | [last] => (shlex_split last).getD []
  | p :: rest => p :: reconstruct_params rest

/-- `Arguments::new`: when the process argument list has the shape
`[name, "-c", rhs, ...]`, split `rhs` on the control delimiter `\x04` and
rebuild the argument vector as `name` followed by the reconstructed
segments; the rebuilt vector is handed to `Arguments::from_iter`.  Any other
shape falls through to ordinary structopt parsing (`Arguments::from_args`,
external), modelled as `none`. -/
def arguments_reconstruct (argv : List String) : Option (List String) :=
  match argv with
  | name :: lhs :: rhs :: _ =>
    if lhs = "-c" then
      some (name :: reconstruct_params ((split_on_char '\x04' rhs.data).map String.mk))
    else none
  | _ => none

/-! ## Flag resolution and engine construction -/

/-- `p_auto_flags`, iterating over the pattern's characters: the first
uppercase character selects `["I"]`, otherwise `["i"]`.  (`Char.isUpper` is
the ASCII restriction of Rust's Unicode `char::is_uppercase`.) -/
def p_auto_flags_loop : List Char → List String
  | [] => ["i"]
  | c :: rest => if c.isUpper then ["I"] else p_auto_flags_loop rest

/-- `p_auto_flags(pattern)`. -/
def p_auto_flags (pattern : String) : List String :=
  p_auto_flags_loop pattern.data

/-- The flag-set computation in `Options::new`: the auto flags, extended by
`args.flags.unwrap_or_default().split_terminator("").skip(1)` — one
single-character token per character of the user flag string, in order. -/
def mk_flagset (pattern : String) (flags : Option String) : List String :=
  p_auto_flags pattern ++ (split_terminator_empty (flags.getD "")).drop 1

/-- The flag loop of `p_aho_corasick`: `"I"` and `"i"` drive
`ascii_case_insensitive`; anything else is `Failure::Simple("Invalid
flags")`. -/
def ac_flags_loop (ac : Bool) : List String → SadResult Bool
  | [] => Except.ok ac
  | f :: rest =>
    if f = "I" then ac_flags_loop false rest
    else if f = "i" then ac_flags_loop true rest
    else Except.error (Failure.Simple "Invalid flags")

/-- `p_aho_corasick(pattern, flags)`: run the flag loop from the builder
default, then `build(&[pattern])` (which cannot fail). -/
def p_aho_corasick (pattern : String) (flags : List String) :
    SadResult AhoCorasickConfig :=
  (ac_flags_loop false flags).map
    (fun b => { patterns := [pattern], ascii_case_insensitive := b })

/-- The flag loop of `p_regex`: each recognized flag updates its builder
option; anything else is `Failure::Simple("Invalid flags")`. -/
def re_flags_loop (re : RegexConfig) : List String → SadResult RegexConfig
  | [] => Except.ok re
  | f :: rest =>
    if f = "I" then re_flags_loop { re with case_insensitive := false } rest
    else if f = "i" then re_flags_loop { re with case_insensitive := true } rest
    else if f = "m" then re_flags_loop { re with multi_line := true } rest
    else if f = "s" then re_flags_loop { re with dot_matches_new_line := true } rest
    else if f = "U" then re_flags_loop { re with swap_greed := true } rest
    else if f = "x" then re_flags_loop { re with ignore_whitespace := true } rest
    else Except.error (Failure.Simple "Invalid flags")

/-- `p_regex(pattern, flags)`: run the flag loop from
`RegexBuilder::new(pattern)`'s defaults.  The final `re.build()` — regex
syntax compilation by the external `regex` crate — is outside this model, so
the result carries the builder configuration. -/
def p_regex (pattern : String) (flags : List String) : SadResult RegexConfig :=
  re_flags_loop { pattern := pattern } flags

/-! ## Fuzzy-finder, pager, action -/

/-- `p_fzf(fzf)`, with the outcomes of `which::which("fzf")` and
`p_tty()` injected: both must hold for integration to be considered, and
then `"never"` disables, explicit option text is split on whitespace, and no
specifier yields an empty extra-argument list. -/
def p_fzf (fzf_found : Bool) (tty : Bool) (fzf : Option String) :
    Option (List String) :=
  if fzf_found && tty then
    match fzf with
    | some v =>
      if v = "never" then none
      else some (split_whitespace v)
    | none => some []
  else none

/-- `p_pager(pager)`, with `env::var("GIT_PAGER")` injected: resolve the
specifier (explicit value first, else the environment), `"never"` and
absence yield nothing, otherwise take the segment before the first `|`,
trim it, split it on whitespace, and build a `SubprocessCommand` from the
first token and the rest — nothing when there is no token. -/
def p_pager (pager : Option String) (git_pager : Option String) :
    Option SubprocessCommand :=
  let resolved := match pager with
    | some v => some v
    | none => git_pager
  match resolved with
  | none => none
  | some val =>
    if val = "never" then none
    else
      match split_whitespace (trim_str (first_segment '|' val)) with
      | [] => none
      | program :: rest =>
        some { program := program, arguments := rest, env := [] }

/-- The action conditional of `Options::new`: `args.commit ||
args.internal_patch != None` selects Commit, else `args.internal_preview !=
None || fzf == None` selects Preview, else Fzf. -/
def p_action (commit : Bool) (internal_patch : Option (List String))
    (internal_preview : Option String) (fzf : Option (List String)) : Action :=
  if commit || internal_patch.isSome then Action.Commit
  else if internal_preview.isSome || fzf.isNone then Action.Preview
  else Action.Fzf

/-- The executable-name resolution at the top of `Options::new`:
`env::args().next()` canonicalized, else `which("sad")`, else the literal
`"sad"`. -/
def resolve_name (env : Env) : String :=
  match env.argv.head? with
  | some _ =>
    match env.canonical_argv0 with
    | some p => p
    | none =>
      match env.which_sad with
      | some p => p
      | none => "sad"
  | none =>
    match env.which_sad with
    | some p => p
    | none => "sad"

/-- `Options::new(args)`: name resolution, flag-set computation, engine
construction (the only fallible step), fuzzy-finder resolution, the action
conditional, printer resolution, and the default unified size of 3. -/
def Options.new (env : Env) (args : Arguments) : SadResult Options :=
  let name := resolve_name env
  let flagset := mk_flagset args.pattern args.flags
  let engineR : SadResult Engine :=
    let replace := args.replace.getD ""
    if args.exact then
      (p_aho_corasick args.pattern flagset).map
        (fun ac => Engine.AhoCorasick ac replace)
    else
      (p_regex args.pattern flagset).map
        (fun re => Engine.Regex re replace)
  match engineR with
  | Except.error e => Except.error e
  | Except.ok engine =>
    let fzf := p_fzf env.fzf_found env.tty args.fzf
    let action :=
      p_action args.commit args.internal_patch args.internal_preview fzf
    let printer := match p_pager args.pager env.git_pager with
      | some cmd => Printer.Pager cmd
      | none => Printer.Stdout
    Except.ok
      { name := name
        action := action
        engine := engine
        fzf := fzf
        printer := printer
        unified := args.unified.getD 3 }

/-! ## Specification-side definitions

These re-express properties the claims quantify over in a form independent
of the sequential flag loops, so the theorems below compare two genuinely
different formulations. -/

/-- The last-occurrence semantics for the case-sensitivity dimension: the
first case flag in the reversed flag list (that is, the last occurrence in
the original order) decides the setting — `"i"` turns case-insensitivity on,
`"I"` off — and the default `d` applies when no case flag occurs. -/
def last_case_setting (flags : List String) (d : Bool) : Bool :=
  match flags.reverse.find? (fun f => f == "I" || f == "i") with
  | some f => f == "i"
  | none => d

/-- Decidable equality of `Except` results, so concrete runs of the
resolver can be checked by `decide`. -/
instance {ε α : Type} [DecidableEq ε] [DecidableEq α] :
    DecidableEq (Except ε α) :=
  fun a b =>
    match a, b with
    | Except.ok x, Except.ok y =>
      if h : x = y then isTrue (by rw [h]) else isFalse (by simp [h])
    | Except.error x, Except.error y =>
      if h : x = y then isTrue (by rw [h]) else isFalse (by simp [h])
    | Except.ok _, Except.error _ => isFalse (by simp)
    | Except.error _, Except.ok _ => isFalse (by simp)

/-! ## Helper lemmas -/

/-- Mapping a function over an `Except` neither introduces nor removes an
error. -/
theorem except_map_error_iff {α β : Type} (f : α → β) (x : SadResult α)
    (e : Failure) : x.map f = Except.error e ↔ x = Except.error e := by
  cases x <;> simp [Except.map]

/-- The literal-engine flag loop fails (necessarily with the
`"Invalid flags"` failure) exactly when a flag other than `"I"`/`"i"`
occurs. -/
theorem ac_flags_loop_error_iff (b : Bool) (flags : List String) :
    ac_flags_loop b flags = Except.error (Failure.Simple "Invalid flags")
      ↔ ∃ f ∈ flags, ¬ (f = "I" ∨ f = "i") := by
  induction flags generalizing b with
  | nil => simp [ac_flags_loop]
  | cons f rest ih =>
    by_cases h1 : f = "I"
    · subst h1
      simp [ac_flags_loop, ih]
    · by_cases h2 : f = "i"
      · subst h2
        simp [ac_flags_loop, ih]
      · simp [ac_flags_loop, h1, h2]

/-- The regex flag loop fails (necessarily with the `"Invalid flags"`
failure) exactly when a flag outside `I i m s U x` occurs. -/
theorem re_flags_loop_error_iff (re : RegexConfig) (flags : List String) :
    re_flags_loop re flags = Except.error (Failure.Simple "Invalid flags")
      ↔ ∃ f ∈ flags,
          ¬ (f = "I" ∨ f = "i" ∨ f = "m" ∨ f = "s" ∨ f = "U" ∨ f = "x") := by
  induction flags generalizing re with
  | nil => simp [re_flags_loop]
  | cons f rest ih =>
    by_cases h1 : f = "I"
    · subst h1
      simp [re_flags_loop, ih]
    · by_cases h2 : f = "i"
      · subst h2
        simp [re_flags_loop, ih]
      · by_cases h3 : f = "m"
        · subst h3
          simp [re_flags_loop, ih]
        · by_cases h4 : f = "s"
          · subst h4
            simp [re_flags_loop, ih]
          · by_cases h5 : f = "U"
            · subst h5
              simp [re_flags_loop, ih]
            · by_cases h6 : f = "x"
              · subst h6
                simp [re_flags_loop, ih]
              · simp [re_flags_loop, h1, h2, h3, h4, h5, h6]

/-- The auto-flag loop, characterized without the early return: `["I"]`
exactly when an uppercase character occurs. -/
theorem p_auto_flags_loop_eq (cs : List Char) :
    p_auto_flags_loop cs = if cs.any Char.isUpper then ["I"] else ["i"] := by
  induction cs with
  | nil => simp [p_auto_flags_loop]
  | cons c rest ih =>
    by_cases h : c.isUpper <;> simp [p_auto_flags_loop, h, ih]

/-! ## Claim theorems -/

/-- C2: engine construction fails with `InvalidFlags` exactly when the flag
list contains a token outside the allowed set for the chosen mode — outside
`I i` for the literal (Aho–Corasick) builder, outside `I i m s U x` for the
regex builder (the regex-syntax compilation performed afterwards by the
external `regex` crate is outside this model, matching the claim's
"pattern-compilation failure aside"). -/
theorem c2_engine_invalid_flags (pattern : String) (flags : List String) :
    (p_aho_corasick pattern flags = Except.error (Failure.Simple "Invalid flags")
      ↔ ∃ f ∈ flags, f ∉ (["I", "i"] : List String))
  ∧ (p_regex pattern flags = Except.error (Failure.Simple "Invalid flags")
      ↔ ∃ f ∈ flags, f ∉ (["I", "i", "m", "s", "U", "x"] : List String)) := by
  constructor
  · rw [p_aho_corasick, except_map_error_iff, ac_flags_loop_error_iff]
    simp
  · rw [p_regex, re_flags_loop_error_iff]
    simp

/-- C3: the automatically computed base flag list is exactly `["I"]` when
the pattern contains an uppercase character, exactly `["i"]` otherwise, and
is always a singleton. -/
theorem c3_auto_flags (pattern : String) :
    ((∃ c ∈ pattern.data, c.isUpper) → p_auto_flags pattern = ["I"])
  ∧ ((∀ c ∈ pattern.data, ¬ c.isUpper) → p_auto_flags pattern = ["i"])
  ∧ (p_auto_flags pattern).length = 1 := by
  unfold p_auto_flags
  rw [p_auto_flags_loop_eq]
  by_cases h : pattern.data.any Char.isUpper
  · rw [List.any_eq_true] at h
    obtain ⟨c, hc, hu⟩ := h
    refine ⟨fun _ => ?_, fun hall => absurd hu (hall c hc), ?_⟩
    · rw [if_pos (List.any_eq_true.mpr ⟨c, hc, hu⟩)]
    · rw [if_pos (List.any_eq_true.mpr ⟨c, hc, hu⟩)]
      rfl
  · refine ⟨fun hex => ?_, fun _ => ?_, ?_⟩
    · obtain ⟨c, hc, hu⟩ := hex
      exact absurd (List.any_eq_true.mpr ⟨c, hc, hu⟩) h
    · rw [if_neg h]
    · rw [if_neg h]
      rfl

/-- C3 witness: a pattern with an uppercase character and one without. -/
theorem c3_auto_flags_witness :
    p_auto_flags "Abc" = ["I"] ∧ p_auto_flags "abc" = ["i"] :=
  ⟨(c3_auto_flags "Abc").1 ⟨'A', by decide, by decide⟩,
   (c3_auto_flags "abc").2.1 (by decide)⟩

/-- Prepending a flag shifts the last-occurrence case setting into the
default: the head only matters when no later case flag occurs. -/
theorem last_case_setting_cons (f : String) (rest : List String) (d : Bool) :
    last_case_setting (f :: rest) d
      = last_case_setting rest
          (if f = "i" then true else if f = "I" then false else d) := by
  unfold last_case_setting
  rw [List.reverse_cons, List.find?_append]
  cases hfind : rest.reverse.find? (fun g => g == "I" || g == "i") with
  | some g => simp [hfind]
  | none =>
    by_cases h2 : f = "i"
    · subst h2
      simp [hfind, List.find?]
    · by_cases h1 : f = "I"
      · subst h1
        simp [hfind, List.find?]
      · have hb1 : (f == "I") = false := beq_eq_false_iff_ne.mpr h1
        have hb2 : (f == "i") = false := beq_eq_false_iff_ne.mpr h2
        simp [hfind, List.find?, hb1, hb2, h1, h2]

/-- Running the sequential regex flag loop on valid flags never fails and
realizes, per semantic dimension, the last-occurrence semantics: the case
setting is decided by the last `"I"`/`"i"`, and each of the four
set-only dimensions is on exactly when its flag occurs. -/
theorem re_flags_loop_ok_characterization (flags : List String)
    (re : RegexConfig)
    (h : ∀ f ∈ flags, f ∈ (["I", "i", "m", "s", "U", "x"] : List String)) :
    re_flags_loop re flags = Except.ok
      { pattern := re.pattern
        case_insensitive := last_case_setting flags re.case_insensitive
        multi_line := re.multi_line || flags.contains "m"
        dot_matches_new_line := re.dot_matches_new_line || flags.contains "s"
        swap_greed := re.swap_greed || flags.contains "U"
        ignore_whitespace := re.ignore_whitespace || flags.contains "x" } := by
  induction flags generalizing re with
  | nil => simp [re_flags_loop, last_case_setting]
  | cons f rest ih =>
    have hf := h f (List.mem_cons_self f rest)
    have hrest : ∀ g ∈ rest, g ∈ (["I", "i", "m", "s", "U", "x"] : List String) :=
      fun g hg => h g (List.mem_cons_of_mem f hg)
    rw [last_case_setting_cons]
    simp only [List.mem_cons, List.not_mem_nil, or_false] at hf
    rcases hf with h1 | h2 | h3 | h4 | h5 | h6
    · subst h1
      simp [re_flags_loop, ih _ hrest, List.contains_cons]
    · subst h2
      simp [re_flags_loop, ih _ hrest, List.contains_cons]
    · subst h3
      simp [re_flags_loop, ih _ hrest, List.contains_cons]
    · subst h4
      simp [re_flags_loop, ih _ hrest, List.contains_cons]
    · subst h5
      simp [re_flags_loop, ih _ hrest, List.contains_cons]
    · subst h6
      simp [re_flags_loop, ih _ hrest, List.contains_cons]

/-- The flag-set computation, characterized directly: the auto flag
followed by one single-character token per character of the user flag
string, in order, duplicates retained. -/
theorem mk_flagset_eq (pattern : String) (fs : Option String) :
    mk_flagset pattern fs
      = p_auto_flags pattern ++ (fs.getD "").data.map (fun c => String.mk [c]) := by
  cases h : (fs.getD "").data with
  | nil => simp [mk_flagset, split_terminator_empty, h]
  | cons c cs => simp [mk_flagset, split_terminator_empty, h]

/-- C4: the effective flag sequence is the auto flag followed by each
character of the user flag string as an individual token in order, without
deduplication; and on that sequence each semantic dimension of the regex
engine is decided by the last flag addressing it (the last `"I"`/`"i"`
decides case sensitivity; `m`, `s`, `U`, `x` each switch their dimension on
when present). -/
theorem c4_flagset_last_wins (pattern : String) (fs : String)
    (re : RegexConfig) (flags : List String)
    (h : ∀ f ∈ flags, f ∈ (["I", "i", "m", "s", "U", "x"] : List String)) :
    mk_flagset pattern (some fs)
        = p_auto_flags pattern ++ fs.data.map (fun c => String.mk [c])
  ∧ mk_flagset pattern none = p_auto_flags pattern
  ∧ re_flags_loop re flags = Except.ok
      { pattern := re.pattern
        case_insensitive := last_case_setting flags re.case_insensitive
        multi_line := re.multi_line || flags.contains "m"
        dot_matches_new_line := re.dot_matches_new_line || flags.contains "s"
        swap_greed := re.swap_greed || flags.contains "U"
        ignore_whitespace := re.ignore_whitespace || flags.contains "x" } :=
  ⟨by simpa using mk_flagset_eq pattern (some fs),
   by simpa using mk_flagset_eq pattern none,
   re_flags_loop_ok_characterization flags re h⟩

/-- C4 witness: duplicate case flags are retained in the flag set, and a
flag list ending in `"i"` yields a case-insensitive engine although `"I"`
appears earlier. -/
theorem c4_flagset_last_wins_witness :
    mk_flagset "a" (some "Ii") = ["i", "I", "i"]
  ∧ re_flags_loop { pattern := "a" } ["I", "i"]
      = Except.ok { pattern := "a", case_insensitive := true } := by
  have h := c4_flagset_last_wins "a" "Ii" { pattern := "a" } ["I", "i"] (by decide)
  refine ⟨?_, ?_⟩
  · rw [h.1]
    rfl
  · rw [h.2.2]
    rfl

/-- Inversion of a successful `Options::new` run: every field of the
resolved configuration equals the respective resolver's result. -/
theorem options_new_ok (env : Env) (args : Arguments) (o : Options)
    (h : Options.new env args = Except.ok o) :
    o.name = resolve_name env
  ∧ o.action = p_action args.commit args.internal_patch args.internal_preview
      (p_fzf env.fzf_found env.tty args.fzf)
  ∧ o.fzf = p_fzf env.fzf_found env.tty args.fzf
  ∧ o.printer = (match p_pager args.pager env.git_pager with
      | some cmd => Printer.Pager cmd
      | none => Printer.Stdout)
  ∧ o.unified = args.unified.getD 3 := by
  simp only [Options.new] at h
  split at h
  · simp at h
  · injection h with h
    subst h
    exact ⟨rfl, rfl, rfl, rfl, rfl⟩

/-- C5: pager resolution takes the explicit specifier when supplied, else
the `GIT_PAGER` value; a resolved `"never"` or an absent value yields no
pager command (hence `Stdout`); otherwise only the portion before the first
`|`, trimmed and split on whitespace, provides the program and arguments
with an empty environment map, falling back to no command when it has no
tokens; and `"less -R | cat"` yields program `less` with single argument
`-R`.  The final conjunct ties `p_pager`'s result to the `Printer` chosen by
`Options::new`. -/
theorem c5_pager (git : Option String) (v : String) :
    p_pager (some v) git = p_pager (some v) none
  ∧ p_pager none git = (match git with
      | some g => p_pager (some g) none
      | none => none)
  ∧ p_pager (some "never") git = none
  ∧ p_pager none none = none
  ∧ (v ≠ "never" →
      p_pager (some v) git
        = match split_whitespace (trim_str (first_segment '|' v)) with
          | [] => none
          | program :: rest => some ⟨program, rest, []⟩)
  ∧ p_pager (some "less -R | cat") git = some ⟨"less", ["-R"], []⟩
  ∧ (∀ env args o, Options.new env args = Except.ok o →
      o.printer = (match p_pager args.pager env.git_pager with
        | some cmd => Printer.Pager cmd
        | none => Printer.Stdout)) := by
  refine ⟨rfl, ?_, rfl, rfl, ?_, rfl, ?_⟩
  · cases git <;> rfl
  · intro hv
    simp [p_pager, hv]
  · intro env args o h
    exact (options_new_ok env args o h).2.2.2.1

/-- C5 witness: the pipeline specifier example, and a concrete resolver run
whose printer is the pager command it induces. -/
theorem c5_pager_witness :
    p_pager (some "less -R | cat") none = some ⟨"less", ["-R"], []⟩
  ∧ (Options.new ⟨["sad"], some "less -R | cat", false, false, none, none⟩
        ⟨"a", none, false, false, false, none, none, none, none, none, none,
          none⟩).map Options.printer
      = Except.ok (Printer.Pager ⟨"less", ["-R"], []⟩) := by
  constructor
  · have h := (c5_pager none "less -R | cat").2.2.2.2.1 (by decide)
    rw [h]
    rfl
  · have h := (c5_pager none "x").2.2.2.2.2.2
      ⟨["sad"], some "less -R | cat", false, false, none, none⟩
      ⟨"a", none, false, false, false, none, none, none, none, none, none, none⟩
      ⟨"sad", Action.Preview, Engine.Regex ⟨"a", true, false, false, false, false⟩ "",
        none, Printer.Pager ⟨"less", ["-R"], []⟩, 3⟩
      (by rfl)
    rw [show (Options.new ⟨["sad"], some "less -R | cat", false, false, none, none⟩
        ⟨"a", none, false, false, false, none, none, none, none, none, none, none⟩)
      = Except.ok ⟨"sad", Action.Preview,
          Engine.Regex ⟨"a", true, false, false, false, false⟩ "",
          none, Printer.Pager ⟨"less", ["-R"], []⟩, 3⟩ from rfl]
    rfl

/-- C6: fuzzy-finder resolution is unavailable (`none`) whenever the
executable is missing or stdout is not a terminal, regardless of the
specifier; when both hold, `"never"` disables it, explicit option text is
tokenized on whitespace, and no specifier yields an empty argument list. -/
theorem c6_fzf (found tty : Bool) (spec : Option String) (v : String) :
    ((found = false ∨ tty = false) → p_fzf found tty spec = none)
  ∧ (found = true → tty = true →
        p_fzf found tty (some "never") = none
      ∧ (v ≠ "never" → p_fzf found tty (some v) = some (split_whitespace v))
      ∧ p_fzf found tty none = some []) := by
  constructor
  · rintro (h | h) <;> subst h <;> simp [p_fzf]
  · intro hf ht
    subst hf
    subst ht
    refine ⟨rfl, fun hv => ?_, rfl⟩
    simp [p_fzf, hv]

/-- C6 witness: available and unavailable configurations at concrete
inputs. -/
theorem c6_fzf_witness :
    p_fzf true true (some "never") = none
  ∧ p_fzf true true (some "-m  -0") = some ["-m", "-0"]
  ∧ p_fzf true true none = some []
  ∧ p_fzf false true (some "-m") = none := by
  have h := c6_fzf true true none "-m  -0"
  have h2 := c6_fzf false true (some "-m") "x"
  refine ⟨(h.2 rfl rfl).1, ?_, (h.2 rfl rfl).2.2, h2.1 (Or.inl rfl)⟩
  rw [(h.2 rfl rfl).2.1 (by decide)]
  rfl

/-- C1 counterexample: with commit absent and the fuzzy finder unavailable
but an internal-patch list present (here, even an empty one), `Options::new`
resolves the action to `Commit`, not `Preview` — refuting the claim's
"absent commit with unavailable fuzzy finder yields Preview" universally
over the remaining fields. -/
theorem c1_action_counterexample :
    (Options.new ⟨["sad"], none, false, false, none, none⟩
        ⟨"a", none, false, false, false, none, none, none, none, none,
          some [], none⟩).map Options.action
      = Except.ok Action.Commit
  ∧ Action.Commit ≠ Action.Preview := by
  constructor
  · rfl
  · decide

/-- C1 (amended): the action is a total, order-sensitive function of the
`Arguments` fields and the fuzzy-finder availability — commit or a present
internal-patch list yields `Commit` (so `commit=true` wins regardless of
every other field); otherwise a present internal-preview marker or an
unavailable fuzzy finder yields `Preview`; otherwise `Fzf`.  The amendment:
the Preview clause additionally requires the internal-patch list to be
absent. -/
theorem c1_action_amended (env : Env) (args : Arguments) (o : Options)
    (h : Options.new env args = Except.ok o) :
    o.action = p_action args.commit args.internal_patch args.internal_preview
        (p_fzf env.fzf_found env.tty args.fzf)
  ∧ ((args.commit = true ∨ args.internal_patch.isSome) →
      o.action = Action.Commit)
  ∧ (args.commit = false → args.internal_patch = none →
      (args.internal_preview.isSome ∨ p_fzf env.fzf_found env.tty args.fzf = none) →
      o.action = Action.Preview)
  ∧ (args.commit = false → args.internal_patch = none →
      args.internal_preview = none →
      p_fzf env.fzf_found env.tty args.fzf ≠ none →
      o.action = Action.Fzf) := by
  have hact := (options_new_ok env args o h).2.1
  refine ⟨hact, ?_, ?_, ?_⟩
  · rintro (hc | hp)
    · rw [hact]
      simp [p_action, hc]
    · rw [hact]
      simp [p_action, hp]
  · intro hc hp hpre
    rw [hact]
    rcases hpre with hpre | hfzf
    · simp [p_action, hc, hp, hpre]
    · simp [p_action, hc, hp, hfzf]
  · intro hc hp hpre hfzf
    rw [hact]
    rw [Ne, ← Option.isNone_iff_eq_none] at hfzf
    simp [p_action, hc, hp, hpre, Bool.not_eq_true] at hfzf ⊢
    simp [hfzf]

/-- C1 witness: a run with commit absent, no internal markers, and the
fuzzy finder unavailable resolves to `Preview`. -/
theorem c1_action_amended_witness :
    Options.new ⟨["sad"], none, false, false, none, none⟩
        ⟨"a", none, false, false, false, none, none, none, none, none, none,
          none⟩
      = Except.ok ⟨"sad", Action.Preview,
          Engine.Regex ⟨"a", true, false, false, false, false⟩ "",
          none, Printer.Stdout, 3⟩
  ∧ (⟨"sad", Action.Preview, Engine.Regex ⟨"a", true, false, false, false, false⟩ "",
        none, Printer.Stdout, 3⟩ : Options).action = Action.Preview := by
  constructor
  · rfl
  · exact (c1_action_amended ⟨["sad"], none, false, false, none, none⟩
      ⟨"a", none, false, false, false, none, none, none, none, none, none, none⟩
      ⟨"sad", Action.Preview, Engine.Regex ⟨"a", true, false, false, false, false⟩ "",
        none, Printer.Stdout, 3⟩
      (by rfl)).2.2.1 rfl rfl (Or.inr rfl)

/-- C9: resolution is deterministic — two runs of `Options::new` from the
same `Arguments` and the same injected environment produce structurally
identical results, field by field.  (All ambient reads of the source —
process arguments, `GIT_PAGER`, executable lookup, terminal detection — are
explicit inputs of the embedding, so the resolver is a pure function of
them.) -/
theorem c9_options_deterministic (env : Env) (args : Arguments)
    (o1 o2 : Options)
    (h1 : Options.new env args = Except.ok o1)
    (h2 : Options.new env args = Except.ok o2) :
    o1.name = o2.name ∧ o1.action = o2.action ∧ o1.engine = o2.engine
  ∧ o1.fzf = o2.fzf ∧ o1.printer = o2.printer ∧ o1.unified = o2.unified := by
  rw [h1] at h2
  injection h2 with h
  subst h
  exact ⟨rfl, rfl, rfl, rfl, rfl, rfl⟩

/-- C9 witness: two identical concrete runs agree on the action. -/
theorem c9_options_deterministic_witness :
    (⟨"sad", Action.Fzf, Engine.Regex ⟨"a", true, false, false, false, false⟩ "",
        some [], Printer.Stdout, 3⟩ : Options).action
      = (⟨"sad", Action.Fzf, Engine.Regex ⟨"a", true, false, false, false, false⟩ "",
        some [], Printer.Stdout, 3⟩ : Options).action :=
  (c9_options_deterministic ⟨["sad"], none, true, true, none, none⟩
    ⟨"a", none, false, false, false, none, none, none, none, none, none, none⟩
    ⟨"sad", Action.Fzf, Engine.Regex ⟨"a", true, false, false, false, false⟩ "",
      some [], Printer.Stdout, 3⟩
    ⟨"sad", Action.Fzf, Engine.Regex ⟨"a", true, false, false, false, false⟩ "",
      some [], Printer.Stdout, 3⟩
    (by rfl) (by rfl)).2.1

/-- C10: the action conditional tests only the presence of the
internal-patch field: with commit unset, any `Some` list — its contents
never inspected — forces `Commit`. -/
theorem c10_internal_patch_presence (env : Env) (args : Arguments)
    (o : Options) (patches : List String)
    (_hc : args.commit = false) (hp : args.internal_patch = some patches)
    (h : Options.new env args = Except.ok o) :
    o.action = Action.Commit := by
  have hact := (options_new_ok env args o h).2.1
  rw [hact]
  simp [p_action, hp]

/-- C10 witness: an empty internal-patch list still forces `Commit`. -/
theorem c10_internal_patch_presence_witness :
    Options.new ⟨["s"], none, false, false, none, none⟩
        ⟨"b", none, false, false, false, none, none, none, none, none,
          some [], none⟩
      = Except.ok ⟨"sad", Action.Commit,
          Engine.Regex ⟨"b", true, false, false, false, false⟩ "",
          none, Printer.Stdout, 3⟩
  ∧ (⟨"sad", Action.Commit, Engine.Regex ⟨"b", true, false, false, false, false⟩ "",
        none, Printer.Stdout, 3⟩ : Options).action = Action.Commit := by
  constructor
  · rfl
  · exact c10_internal_patch_presence ⟨["s"], none, false, false, none, none⟩
      ⟨"b", none, false, false, false, none, none, none, none, none, some [], none⟩
      ⟨"sad", Action.Commit, Engine.Regex ⟨"b", true, false, false, false, false⟩ "",
        none, Printer.Stdout, 3⟩
      [] rfl rfl (by rfl)

/-- C7 counterexample: joining `["sad", "--exact", "foo\x04bar baz"]` with
the control delimiter gives the blob `"sad\x04--exact\x04foo\x04bar baz"`;
the source re-splits it at every delimiter occurrence, so `"foo"` becomes a
penultimate literal segment and only `"bar baz"` is shell-lexed.  The
reconstructed vector therefore retains `"foo"`, unlike the claim's expected
`["sad", "--exact", "bar", "baz"]` (with or without the prepended process
name). -/
theorem c7_reconstruction_counterexample :
    arguments_reconstruct ["sad", "-c", "sad\x04--exact\x04foo\x04bar baz"]
      = some ["sad", "sad", "--exact", "foo", "bar", "baz"]
  ∧ ["sad", "--exact", "foo", "bar", "baz"] ≠ ["sad", "--exact", "bar", "baz"]
  ∧ ["sad", "sad", "--exact", "foo", "bar", "baz"]
      ≠ ["sad", "sad", "--exact", "bar", "baz"] := by
  refine ⟨?_, ?_, ?_⟩
  · rfl
  · decide
  · decide

/-- C7 (amended): for process arguments `["sad", "-c", blob]` with that
blob, the reconstructed argument list is the process name followed by
`["sad", "--exact", "foo", "bar", "baz"]`: the delimiter embedded in the
last joined segment re-splits it, every resulting segment but the final one
passes through literally, and the final `"bar baz"` is shell-lexed into its
tokens. -/
theorem c7_reconstruction_amended :
    arguments_reconstruct ["sad", "-c", "sad\x04--exact\x04foo\x04bar baz"]
      = some ["sad", "sad", "--exact", "foo", "bar", "baz"]
  ∧ shlex_split "bar baz" = some ["bar", "baz"] := by
  constructor
  · rfl
  · rfl

/-- C8: when shell-lexing of the final delimiter segment fails, that
segment contributes zero arguments, the earlier segments pass through
unchanged, and reconstruction of a `-c` invocation still succeeds. -/
theorem c8_shlex_failure_recovered (initSegs : List String) (lastSeg : String)
    (h : shlex_split lastSeg = none) :
    reconstruct_params (initSegs ++ [lastSeg]) = initSegs
  ∧ ∀ name rhs : String, ∀ rest : List String,
      ∃ out, arguments_reconstruct (name :: "-c" :: rhs :: rest) = some out := by
  constructor
  · induction initSegs with
    | nil => simp [reconstruct_params, h]
    | cons p rest ih =>
      cases rest with
      | nil => simp [reconstruct_params, h]
      | cons q t => simpa [reconstruct_params] using ih
  · intro name rhs rest
    exact ⟨name :: reconstruct_params ((split_on_char '\x04' rhs.data).map String.mk),
      by simp [arguments_reconstruct]⟩

/-- C8 witness: an unterminated quote fails shell-lexing; the earlier
segment still passes through and the `-c` form still reconstructs. -/
theorem c8_shlex_failure_recovered_witness :
    shlex_split "'" = none
  ∧ reconstruct_params ["x", "'"] = ["x"]
  ∧ ∃ out, arguments_reconstruct ["sad", "-c", "x\x04'"] = some out := by
  have h := c8_shlex_failure_recovered ["x"] "'" (by decide)
  exact ⟨by decide, h.1, h.2 "sad" "x\x04'" []⟩

end Sad
